import Mathlib

/- Verification of the simulation/optimization engine of
   Pyrefall/ConclusionCliffSimulator (src/main.py).

   Shallow-embedding conventions:
   - Python floats are modelled as exact rationals.
   - Every random draw (a random.random value in [0,1), a random.sample
     subset, a random.uniform outcome) is an explicit parameter of the
     embedded function, so each function is a pure function of its inputs
     and of the draws.
   - Python lists are Lean lists; indexing is modelled with getD together
     with length side conditions (Python raises on out-of-range access,
     which never happens on the in-range inputs the theorems quantify
     over). -/

namespace CCS

/-- Genre labels, from PostscriptBase.GENRES. -/
def GENRES : List String := ["Romance", "Adventure", "Comedy", "Tragedy", "Suspense"]

/-- Notoriety cap, from PostscriptBase.NOTORIETY_CAP. -/
def NOTORIETY_CAP : Int := 200

/-- From PostscriptBase._select_genre_index: given the cumulative threshold
table and the uniform roll, return the smallest index whose threshold is at
least the roll; if none is found (floating drift), return the last index. -/
def select_genre_index (cumulative_weights : List ℚ) (roll : ℚ) : Nat :=
  match List.findIdx? (fun threshold => decide (roll ≤ threshold)) cumulative_weights with
  | some idx => idx
  | none => cumulative_weights.length - 1

/-- Position-indexed body of the hunt step: entry number i (counting from
the accumulator) is raised capped at NOTORIETY_CAP when it is the selected
index, and otherwise lowered by 1 unless it is already at 1 or below. -/
def apply_step_entries (idx : Nat) (cheese_value : Int) : Nat → List Int → List Int
  | _, [] => []
  | i, v :: vs =>
    (if i = idx then min NOTORIETY_CAP (v + cheese_value)
     else if v > 1 then v - 1 else v) :: apply_step_entries idx cheese_value (i + 1) vs

/-- From PostscriptBase._apply_hunt_step: select one genre from the roll,
raise it by the cheese value capped at NOTORIETY_CAP, and lower every other
genre by 1 unless it is already at 1 or below. -/
def apply_hunt_step (values : List Int) (cheese_value : Int)
    (cumulative_weights : List ℚ) (roll : ℚ) : List Int :=
  apply_step_entries (select_genre_index cumulative_weights roll) cheese_value 0 values

/-- From PostscriptBase._simulate_sequence: apply one hunt step per cheese
value (consuming one roll per step) and report readiness, i.e. every genre
value at least 80. -/
def simulate_sequence (base_notoriety : List Int) (cheese_sequence : List Int)
    (cumulative_weights : List ℚ) (rolls : List ℚ) : List Int × Bool :=
  let final := (cheese_sequence.zip rolls).foldl
    (fun values step => apply_hunt_step values step.1 cumulative_weights step.2) base_notoriety
  (final, final.all (fun v => decide (80 ≤ v)))

/-- From CheeseAllocator.get_genre_weight_distribution: normalize the raw
per-genre page counts to weights summing to 1, falling back to a uniform
distribution when the raw total is 0.  The Python dict over GENRES is
modelled as a list in genre order. -/
def get_genre_weight_distribution (raw_counts : List Nat) : List ℚ :=
  let total := raw_counts.sum
  if total = 0 then List.replicate GENRES.length ((1 : ℚ) / GENRES.length)
  else raw_counts.map (fun c : Nat => (c : ℚ) / (total : ℚ))

/-- Running sums of a list of weights starting from a given accumulator;
this is the loop inside PostscriptBase._prepare_weight_cumulative. -/
def running_sums (acc : ℚ) : List ℚ → List ℚ
  | [] => []
  | w :: ws => (acc + w) :: running_sums (acc + w) ws

/-- Replace the last element of a list (Python `xs[-1] = v`; the Python code
only ever does this on the non-empty GENRES-indexed table). -/
def set_last (xs : List ℚ) (v : ℚ) : List ℚ := xs.dropLast ++ [v]

/-- From PostscriptBase._prepare_weight_cumulative: running sums of the
weights in genre order, with the last entry forced to exactly 1. -/
def prepare_weight_cumulative (weights : List ℚ) : List ℚ :=
  set_last (running_sums 0 weights) 1

lemma apply_step_entries_length (idx : Nat) (cheese_value : Int) (i : Nat) (vs : List Int) :
    (apply_step_entries idx cheese_value i vs).length = vs.length := by
  induction vs generalizing i with
  | nil => rfl
  | cons v vs ih => simp [apply_step_entries, ih]

/-- Point-mass distribution over the genre list: weight 1 on the target
genre and 0 on every other genre. -/
def point_mass (target : Nat) : List ℚ :=
  (List.range GENRES.length).map (fun i => if i = target then 1 else 0)

/-- Extension configuration, from DualPostscriptSimulator._extension_config's
returned dict. -/
structure ExtensionConfig where
  top_indices : List Nat
  threshold_ready : Int
  threshold_high : Int
  extra_hunts : Nat
  setup_index : Nat
deriving DecidableEq

/-- From DualPostscriptSimulator._extension_config (and the structurally
identical DualPostscriptPrunedSimulator._extension_config_with_counts, whose
page counts arrive as an argument instead of being read from the widgets):
no config when auto-extend is off, the page-count list is empty, or the
maximum page count is 0; otherwise the top indices are the genres tied for
the maximum page count, with thresholds 80+m and 33+m and 3 extra hunts.
Python's max over the non-empty Nat list is foldl max 0. -/
def extension_config (auto_extend : Bool) (page_counts : List Nat) (m_value : Int)
    (setup_index : Nat) : Option ExtensionConfig :=
  if ¬ auto_extend then none
  else if page_counts = [] then none
  else if page_counts.foldl max 0 = 0 then none
  else some {
    top_indices := (List.range page_counts.length).filter
      (fun idx => page_counts.getD idx 0 == page_counts.foldl max 0),
    threshold_ready := 80 + m_value,
    threshold_high := 33 + m_value,
    extra_hunts := 3,
    setup_index := setup_index }

/-- From DualPostscriptSimulator._should_trigger_extension (and the
structurally identical _should_trigger_extension_with_counts): on the second
setup, a top genre with page count 0 and value below 83 suppresses the
trigger; otherwise trigger when some top genre is below the ready
threshold.  The page-count list the special case consults is the explicit
first argument. -/
def should_trigger_extension (setup_page_counts : List Nat) (values : List Int)
    (config : ExtensionConfig) : Bool :=
  if config.setup_index == 1 &&
      config.top_indices.any (fun idx =>
        setup_page_counts.getD idx 0 == 0 && decide (values.getD idx 0 < 83)) then
    false
  else
    config.top_indices.any (fun idx => decide (values.getD idx 0 < config.threshold_ready))

/-- Condition inside DualPostscriptSimulator._apply_extension: some top genre
is still below the high threshold 33+m. -/
def below_high (values : List Int) (config : ExtensionConfig) : Bool :=
  config.top_indices.any (fun idx => decide (values.getD idx 0 < config.threshold_high))

/-- Loop body of DualPostscriptSimulator._apply_extension, consuming one roll
per extra hunt.  Besides the final vector it returns the (ghost) trace of
(state before the step, cheese value chosen) pairs, which the temporal
theorems quantify over. -/
def apply_extension_go (cumulative_weights : List ℚ) (config : ExtensionConfig) :
    Nat → List Int → List ℚ → Bool → List Int × List (List Int × Int)
  | 0, values, _, _ => (values, [])
  | n + 1, values, rolls, switch_to_medium =>
    let below := below_high values config
    let cheese_value : Int := if !switch_to_medium && below then 125 else 50
    let next := apply_hunt_step values cheese_value cumulative_weights (rolls.headD 0)
    let rest := apply_extension_go cumulative_weights config n next rolls.tail
      (switch_to_medium || !below)
    (rest.1, (values, cheese_value) :: rest.2)

/-- From DualPostscriptSimulator._apply_extension: extra_hunts steps starting
with the medium switch off. -/
def apply_extension (values : List Int) (cumulative_weights : List ℚ)
    (config : ExtensionConfig) (rolls : List ℚ) : List Int × List (List Int × Int) :=
  apply_extension_go cumulative_weights config config.extra_hunts values rolls false

/-- Trace of (state, cheese value) pairs of one extension. -/
def extension_trace (values : List Int) (cumulative_weights : List ℚ)
    (config : ExtensionConfig) (rolls : List ℚ) : List (List Int × Int) :=
  (apply_extension values cumulative_weights config rolls).2

/-- From DualPostscriptPrunedSimulator._second_setup_prune_threshold: 93 when
setup 2's extend flag is set, 90 otherwise. -/
def second_setup_prune_threshold (extend_flag : Bool) : Int :=
  if extend_flag then 93 else 90

/-- Entrywise pruning walk: zero a page count whose genre's notoriety
strictly exceeds the threshold, keep it otherwise. -/
def prune_entries (threshold : Int) : List Nat → List Int → List Nat
  | [], _ => []
  | c :: cs, vs =>
    (if vs.headD 0 > threshold then 0 else c) :: prune_entries threshold cs vs.tail

/-- From DualPostscriptPrunedSimulator._build_pruned_page_counts, with the
threshold inlined from _second_setup_prune_threshold. -/
def build_pruned_page_counts (extend_flag : Bool) (counts : List Nat)
    (notoriety_values : List Int) : List Nat :=
  prune_entries (second_setup_prune_threshold extend_flag) counts notoriety_values

/-- Best-probability update of one iteration of
PostscriptOptimizer._run_optimization: the candidate pool's evaluated
probabilities plus the current best (appended last, as in the Python list),
ranked descending; the blended candidate's evaluation replaces the top
exactly when it is at least as good.  The Monte Carlo evaluations are the
explicit rational parameters. -/
def iteration_best (candidate_probs : List ℚ) (best_prob blended_prob : ℚ) : ℚ :=
  let results := candidate_probs ++ [best_prob]
  let sorted := results.mergeSort (fun a b => decide (b ≤ a))
  let top := sorted.headD 0
  if blended_prob ≥ top then blended_prob else top

/-- Best probability after folding every iteration's draws (each iteration
contributes its candidate evaluations and its blended evaluation). -/
def run_optimization_best_prob (initial_prob : ℚ)
    (iteration_results : List (List ℚ × ℚ)) : ℚ :=
  iteration_results.foldl (fun best it => iteration_best it.1 best it.2) initial_prob

/-- From PostscriptOptimizer._generate_candidate_counts: indices of the
strictly positive base counts. -/
def positive_indices (base_counts : List ℚ) : List Nat :=
  (List.range base_counts.length).filter (fun idx => decide (0 < base_counts.getD idx 0))

/-- Subset size max(1, (n+1)//2) from _generate_candidate_counts. -/
def gen_subset_size (n : Nat) : Nat := max 1 ((n + 1) / 2)

/-- Shape of a random.sample outcome in _generate_candidate_counts: when the
positive-index pool (or the full index range, if no count is positive) is
larger than the subset size, a nodup subset of that size drawn from the
pool; otherwise exactly the pool. -/
def valid_selection (base_counts : List ℚ) (selected : List Nat) : Bool :=
  let pos0 := positive_indices base_counts
  let pos := if pos0.isEmpty then List.range base_counts.length else pos0
  let size := gen_subset_size pos.length
  if size < pos.length then
    decide selected.Nodup && selected.all (fun idx => decide (idx ∈ pos)) &&
      (selected.length == size)
  else selected == pos

/-- One entry update of _generate_candidate_counts: the selected index is
set to max(0, base*(1+delta)) where delta = uniform(-range/100, range/100)
+ bias*0.1, and random.uniform(a,b) = a + (b-a)*r for a random.random draw
r in [0,1). -/
def gen_step (base_counts bias : List ℚ) (dial_range : ℚ)
    (varied : List ℚ) (sr : Nat × ℚ) : List ℚ :=
  let idx := sr.1
  let value := base_counts.getD idx 0
  let b := bias.getD idx 0
  let lo := -(dial_range / 100)
  let hi := dial_range / 100
  let delta := (lo + (hi - lo) * sr.2) + b * (1 / 10)
  varied.set idx (max 0 (value * (1 + delta)))

/-- From PostscriptOptimizer._generate_candidate_counts: perturb each
selected index of a copy of the base counts (each selected index consumes
one uniform draw). -/
def generate_candidate_counts (base_counts bias : List ℚ) (dial_range : ℚ)
    (selected : List Nat) (rand_draws : List ℚ) : List ℚ :=
  (selected.zip rand_draws).foldl (gen_step base_counts bias dial_range) base_counts

/-- Acceptance test of the regeneration loop in _run_optimization: a
candidate is kept exactly when its counts do not sum to 0. -/
def regen_success (base_counts bias : List ℚ) (dial_range : ℚ)
    (draw : List Nat × List ℚ) : Bool :=
  decide ((generate_candidate_counts base_counts bias dial_range draw.1 draw.2).sum ≠ 0)

/-- Termination of the regeneration loop `while len(candidates) <
current_candidates` for a given infinite draw sequence: some finite number
of trials yields the needed number of accepted candidates. -/
def regen_loop_terminates (base_counts bias : List ℚ) (dial_range : ℚ)
    (draws : Nat → List Nat × List ℚ) (needed : Nat) : Prop :=
  ∃ trials, needed ≤ (List.range trials).countP
    (fun n => regen_success base_counts bias dial_range (draws n))

lemma apply_hunt_step_length (values : List Int) (cheese_value : Int)
    (cumulative_weights : List ℚ) (roll : ℚ) :
    (apply_hunt_step values cheese_value cumulative_weights roll).length = values.length :=
  apply_step_entries_length _ _ _ _

lemma apply_step_entries_getD (idx : Nat) (cheese_value : Int) (i j : Nat) (vs : List Int)
    (hj : j < vs.length) :
    (apply_step_entries idx cheese_value i vs).getD j 0 =
      (if i + j = idx then min NOTORIETY_CAP (vs.getD j 0 + cheese_value)
      else if vs.getD j 0 > 1 then vs.getD j 0 - 1 else vs.getD j 0) := by
  induction vs generalizing i j with
  | nil => simp at hj
  | cons v vs ih =>
    cases j with
    | zero => simp [apply_step_entries]
    | succ j =>
      have hj2 : j < vs.length := by simpa using hj
      have harith : i + 1 + j = i + (j + 1) := by omega
      have := ih (i + 1) j hj2
      rw [harith] at this
      simpa [apply_step_entries] using this

lemma apply_hunt_step_getD (values : List Int) (cheese_value : Int)
    (cumulative_weights : List ℚ) (roll : ℚ) (i : Nat) (hi : i < values.length) :
    (apply_hunt_step values cheese_value cumulative_weights roll).getD i 0 =
      (if i = select_genre_index cumulative_weights roll then
        min NOTORIETY_CAP (values.getD i 0 + cheese_value)
      else if values.getD i 0 > 1 then values.getD i 0 - 1 else values.getD i 0) := by
  have := apply_step_entries_getD (select_genre_index cumulative_weights roll)
    cheese_value 0 i values hi
  simpa [apply_hunt_step] using this

lemma apply_hunt_step_mem_getD (values : List Int) (cheese_value : Int)
    (cumulative_weights : List ℚ) (roll : ℚ) (v : Int)
    (hv : v ∈ apply_hunt_step values cheese_value cumulative_weights roll) :
    ∃ i, i < values.length ∧
      v = (apply_hunt_step values cheese_value cumulative_weights roll).getD i 0 := by
  obtain ⟨i, hilt, hig⟩ := List.getElem_of_mem hv
  refine ⟨i, ?_, ?_⟩
  · have := hilt; rwa [apply_hunt_step_length] at this
  · rw [List.getD_eq_getElem _ _ hilt, hig]

lemma values_getD_mem (values : List Int) (i : Nat) (hi : i < values.length) :
    values.getD i 0 ∈ values := by
  rw [List.getD_eq_getElem _ _ hi]
  exact List.getElem_mem _

/-- C9: the Step Engine preserves the range [0, 200]: for every vector with
entries in [0, 200] and every non-negative token magnitude, after one
application of _apply_hunt_step every entry is still in [0, 200]; decay
never moves an entry from at least 1 to below 1; and an entry equal to 0
stays 0 on a step in which its genre is not selected. -/
theorem step_preserves_range (values : List Int) (cheese_value : Int)
    (cumulative_weights : List ℚ) (roll : ℚ)
    (hv : ∀ v ∈ values, 0 ≤ v ∧ v ≤ 200) (hc : 0 ≤ cheese_value) :
    (∀ v ∈ apply_hunt_step values cheese_value cumulative_weights roll, 0 ≤ v ∧ v ≤ 200) ∧
    (∀ i, i < values.length → 1 ≤ values.getD i 0 →
      1 ≤ (apply_hunt_step values cheese_value cumulative_weights roll).getD i 0) ∧
    (∀ i, i < values.length → i ≠ select_genre_index cumulative_weights roll →
      values.getD i 0 = 0 →
      (apply_hunt_step values cheese_value cumulative_weights roll).getD i 0 = 0) := by
  have hget : ∀ i, i < values.length → 0 ≤ values.getD i 0 ∧ values.getD i 0 ≤ 200 :=
    fun i hi => hv _ (values_getD_mem values i hi)
  refine ⟨?_, ?_, ?_⟩
  · intro v hvmem
    obtain ⟨i, hi, rfl⟩ := apply_hunt_step_mem_getD _ _ _ _ _ hvmem
    rw [apply_hunt_step_getD _ _ _ _ _ hi]
    obtain ⟨h0, h200⟩ := hget i hi
    split_ifs with h1 h2
    · refine ⟨le_min (by norm_num [NOTORIETY_CAP]) (add_nonneg h0 hc), ?_⟩
      exact le_trans (min_le_left _ _) (by norm_num [NOTORIETY_CAP])
    · constructor <;> omega
    · exact ⟨h0, h200⟩
  · intro i hi h1
    rw [apply_hunt_step_getD _ _ _ _ _ hi]
    obtain ⟨h0, h200⟩ := hget i hi
    split_ifs with hsel h2
    · exact le_min (by norm_num [NOTORIETY_CAP]) (by omega)
    · omega
    · omega
  · intro i hi hne h0v
    rw [apply_hunt_step_getD _ _ _ _ _ hi]
    rw [if_neg hne, h0v]
    norm_num

/-- C9 witness: the range-preservation theorem applied at a concrete vector,
magnitude and roll. -/
theorem step_preserves_range_witness :
    (∀ v ∈ ([0, 1, 200, 80, 5] : List Int), 0 ≤ v ∧ v ≤ 200) ∧
    (0 : Int) ≤ 50 ∧
    ((∀ v ∈ apply_hunt_step [0, 1, 200, 80, 5] 50
        (prepare_weight_cumulative (get_genre_weight_distribution [1, 1, 1, 1, 1])) (1/2),
        0 ≤ v ∧ v ≤ 200) ∧
     (∀ i, i < ([0, 1, 200, 80, 5] : List Int).length →
        1 ≤ ([0, 1, 200, 80, 5] : List Int).getD i 0 →
        1 ≤ (apply_hunt_step [0, 1, 200, 80, 5] 50
          (prepare_weight_cumulative (get_genre_weight_distribution [1, 1, 1, 1, 1])) (1/2)).getD i 0) ∧
     (∀ i, i < ([0, 1, 200, 80, 5] : List Int).length →
        i ≠ select_genre_index
          (prepare_weight_cumulative (get_genre_weight_distribution [1, 1, 1, 1, 1])) (1/2) →
        ([0, 1, 200, 80, 5] : List Int).getD i 0 = 0 →
        (apply_hunt_step [0, 1, 200, 80, 5] 50
          (prepare_weight_cumulative (get_genre_weight_distribution [1, 1, 1, 1, 1])) (1/2)).getD i 0 = 0)) :=
  ⟨by decide, by decide, step_preserves_range _ _ _ _ (by decide) (by decide)⟩

lemma uniform_counts_table :
    prepare_weight_cumulative (get_genre_weight_distribution [1, 1, 1, 1, 1]) =
      [1/5, 2/5, 3/5, 4/5, 1] := by
  norm_num [get_genre_weight_distribution, prepare_weight_cumulative, running_sums, set_last]

lemma select_uniform_half :
    select_genre_index
      (prepare_weight_cumulative (get_genre_weight_distribution [1, 1, 1, 1, 1])) (1/2) = 2 := by
  rw [uniform_counts_table]
  norm_num [select_genre_index, List.findIdx?_cons]

/-- C1 counterexample: the claim promises that every entry of the post-step
vector lies in [1, 200] for any starting vector with entries in [0, 200];
but a non-selected genre supplied at 0 stays at 0.  Concretely: all-zero
start, uniform weights, magnitude 25, roll 1/2 (which selects genre 2). -/
theorem step_floor_counterexample :
    (∀ v ∈ ([0, 0, 0, 0, 0] : List Int), 0 ≤ v ∧ v ≤ 200) ∧
    ¬ (∀ v ∈ apply_hunt_step [0, 0, 0, 0, 0] 25
        (prepare_weight_cumulative (get_genre_weight_distribution [1, 1, 1, 1, 1])) (1/2),
        1 ≤ v ∧ v ≤ 200) := by
  refine ⟨by decide, fun h => ?_⟩
  have hstep : apply_hunt_step [0, 0, 0, 0, 0] 25
      (prepare_weight_cumulative (get_genre_weight_distribution [1, 1, 1, 1, 1])) (1/2) =
      apply_step_entries 2 25 0 [0, 0, 0, 0, 0] := by
    rw [apply_hunt_step, select_uniform_half]
  rw [hstep] at h
  have hmem : (0 : Int) ∈ apply_step_entries 2 25 0 [0, 0, 0, 0, 0] := by decide
  exact absurd (h 0 hmem).1 (by decide)

/-- C1 (amended): for every non-negative token magnitude and every starting
vector whose entries lie in [1, 200], after one _apply_hunt_step every entry
lies in [1, 200]; a non-selected genre at 1 stays at 1 after decay; and the
selected genre at 199 receiving a 50-magnitude token becomes exactly 200. -/
theorem step_one_to_cap (values : List Int) (cheese_value : Int)
    (cumulative_weights : List ℚ) (roll : ℚ)
    (hv : ∀ v ∈ values, 1 ≤ v ∧ v ≤ 200) (hc : 0 ≤ cheese_value) :
    (∀ v ∈ apply_hunt_step values cheese_value cumulative_weights roll, 1 ≤ v ∧ v ≤ 200) ∧
    (∀ i, i < values.length → i ≠ select_genre_index cumulative_weights roll →
      values.getD i 0 = 1 →
      (apply_hunt_step values cheese_value cumulative_weights roll).getD i 0 = 1) ∧
    (select_genre_index cumulative_weights roll < values.length →
      values.getD (select_genre_index cumulative_weights roll) 0 = 199 →
      cheese_value = 50 →
      (apply_hunt_step values cheese_value cumulative_weights roll).getD
        (select_genre_index cumulative_weights roll) 0 = 200) := by
  have hget : ∀ i, i < values.length → 1 ≤ values.getD i 0 ∧ values.getD i 0 ≤ 200 :=
    fun i hi => hv _ (values_getD_mem values i hi)
  refine ⟨?_, ?_, ?_⟩
  · intro v hvmem
    obtain ⟨i, hi, rfl⟩ := apply_hunt_step_mem_getD _ _ _ _ _ hvmem
    rw [apply_hunt_step_getD _ _ _ _ _ hi]
    obtain ⟨h1, h200⟩ := hget i hi
    split_ifs with hsel h2
    · refine ⟨le_min (by norm_num [NOTORIETY_CAP]) (by omega), ?_⟩
      exact le_trans (min_le_left _ _) (by norm_num [NOTORIETY_CAP])
    · constructor <;> omega
    · constructor <;> omega
  · intro i hi hne h1v
    rw [apply_hunt_step_getD _ _ _ _ _ hi]
    rw [if_neg hne, h1v]
    norm_num
  · intro hsel h199 h50
    rw [apply_hunt_step_getD _ _ _ _ _ hsel]
    rw [if_pos rfl, h199, h50]
    norm_num [NOTORIETY_CAP]

/-- C1 witness: the amended floor/cap theorem applied at a concrete vector
holding the two boundary values 1 and 199, with a 50-magnitude token. -/
theorem step_one_to_cap_witness :
    (∀ v ∈ ([1, 199, 100, 80, 2] : List Int), 1 ≤ v ∧ v ≤ 200) ∧
    (0 : Int) ≤ 50 ∧
    ((∀ v ∈ apply_hunt_step [1, 199, 100, 80, 2] 50
        (prepare_weight_cumulative (get_genre_weight_distribution [0, 1, 0, 0, 0])) (1/2),
        1 ≤ v ∧ v ≤ 200) ∧
     (∀ i, i < ([1, 199, 100, 80, 2] : List Int).length →
        i ≠ select_genre_index
          (prepare_weight_cumulative (get_genre_weight_distribution [0, 1, 0, 0, 0])) (1/2) →
        ([1, 199, 100, 80, 2] : List Int).getD i 0 = 1 →
        (apply_hunt_step [1, 199, 100, 80, 2] 50
          (prepare_weight_cumulative (get_genre_weight_distribution [0, 1, 0, 0, 0])) (1/2)).getD i 0 = 1) ∧
     (select_genre_index
        (prepare_weight_cumulative (get_genre_weight_distribution [0, 1, 0, 0, 0])) (1/2) <
        ([1, 199, 100, 80, 2] : List Int).length →
      ([1, 199, 100, 80, 2] : List Int).getD
        (select_genre_index
          (prepare_weight_cumulative (get_genre_weight_distribution [0, 1, 0, 0, 0])) (1/2)) 0 = 199 →
      (50 : Int) = 50 →
      (apply_hunt_step [1, 199, 100, 80, 2] 50
        (prepare_weight_cumulative (get_genre_weight_distribution [0, 1, 0, 0, 0])) (1/2)).getD
        (select_genre_index
          (prepare_weight_cumulative (get_genre_weight_distribution [0, 1, 0, 0, 0])) (1/2)) 0 = 200)) :=
  ⟨by decide, by decide, step_one_to_cap _ _ _ _ (by decide) (by decide)⟩

lemma running_sums_chain (acc : ℚ) (ws : List ℚ) (h : ∀ w ∈ ws, 0 ≤ w) :
    List.Chain' (· ≤ ·) (running_sums acc ws) := by
  induction ws generalizing acc with
  | nil => simp [running_sums]
  | cons w ws ih =>
    rw [running_sums, List.chain'_cons']
    refine ⟨?_, ih (acc + w) (fun x hx => h x (List.mem_cons_of_mem _ hx))⟩
    intro y hy
    cases ws with
    | nil => simp [running_sums] at hy
    | cons w2 ws2 =>
      simp only [running_sums, List.head?_cons, Option.mem_def, Option.some.injEq] at hy
      have : 0 ≤ w2 := h w2 (by simp)
      linarith [hy]

lemma running_sums_le_sum (acc : ℚ) (ws : List ℚ) (h : ∀ w ∈ ws, 0 ≤ w) :
    ∀ x ∈ running_sums acc ws, x ≤ acc + ws.sum := by
  induction ws generalizing acc with
  | nil => simp [running_sums]
  | cons w ws ih =>
    intro x hx
    rw [running_sums] at hx
    rcases List.mem_cons.1 hx with hx | hx
    · have hsum : 0 ≤ ws.sum := List.sum_nonneg (fun y hy => h y (List.mem_cons_of_mem _ hy))
      subst hx
      simp only [List.sum_cons]
      linarith
    · have := ih (acc + w) (fun y hy => h y (List.mem_cons_of_mem _ hy)) x hx
      simp only [List.sum_cons]
      linarith

lemma dist_nonneg (raw_counts : List Nat) :
    ∀ w ∈ get_genre_weight_distribution raw_counts, 0 ≤ w := by
  intro w hw
  rw [get_genre_weight_distribution] at hw
  split_ifs at hw with htot
  · rcases List.eq_of_mem_replicate hw with rfl
    norm_num
  · obtain ⟨c, hc, rfl⟩ := List.mem_map.1 hw
    exact div_nonneg (Nat.cast_nonneg c) (Nat.cast_nonneg _)

lemma cast_div_sum (l : List Nat) (T : ℚ) :
    (l.map (fun c : Nat => (c : ℚ) / T)).sum = (l.map (fun c : Nat => (c : ℚ))).sum / T := by
  induction l with
  | nil => simp
  | cons a l ih => simp [ih, add_div]

lemma dist_sum_one (raw_counts : List Nat) (h : raw_counts.length = GENRES.length) :
    (get_genre_weight_distribution raw_counts).sum = 1 := by
  rw [get_genre_weight_distribution]
  split_ifs with htot
  · rw [List.sum_replicate]
    norm_num [GENRES]
  · rw [cast_div_sum raw_counts ((raw_counts.sum : ℚ))]
    have hcast : ((raw_counts.sum : ℚ)) = (raw_counts.map (fun c : Nat => (c : ℚ))).sum :=
      @Nat.cast_list_sum ℚ _ raw_counts
    rw [← hcast]
    exact div_self (by exact_mod_cast htot)

/-- C2: for every raw page-count vector over the five genres, the cumulative
threshold table built from the normalized selection-weight distribution
(with a uniform fallback at raw total 0) is non-decreasing and its last
element equals exactly 1. -/
theorem cumulative_table_monotone_last_one (raw_counts : List Nat)
    (h : raw_counts.length = GENRES.length) :
    List.Chain' (· ≤ ·) (prepare_weight_cumulative (get_genre_weight_distribution raw_counts)) ∧
    (prepare_weight_cumulative (get_genre_weight_distribution raw_counts)).getLast? = some 1 := by
  have hnn := dist_nonneg raw_counts
  have hsum := dist_sum_one raw_counts h
  constructor
  · rw [prepare_weight_cumulative, set_last, List.chain'_append]
    refine ⟨?_, List.chain'_singleton 1, ?_⟩
    · exact List.Chain'.sublist (running_sums_chain 0 _ hnn) (List.dropLast_sublist _)
    · intro x hx y hy
      simp only [List.head?_cons, Option.mem_def, Option.some.injEq] at hy
      subst hy
      obtain ⟨hne, hxeq⟩ := List.mem_getLast?_eq_getLast hx
      have hxmem : x ∈ (running_sums 0 (get_genre_weight_distribution raw_counts)).dropLast := by
        rw [hxeq]; exact List.getLast_mem hne
      have hxmem2 : x ∈ running_sums 0 (get_genre_weight_distribution raw_counts) :=
        (List.dropLast_sublist _).mem hxmem
      have := running_sums_le_sum 0 _ hnn x hxmem2
      rw [hsum] at this
      linarith
  · rw [prepare_weight_cumulative, set_last]
    simp [List.getLast?_append]

/-- C2 witness: the table invariants at a concrete count vector. -/
theorem cumulative_table_monotone_last_one_witness :
    ([3, 0, 2, 0, 0] : List Nat).length = GENRES.length ∧
    (List.Chain' (· ≤ ·) (prepare_weight_cumulative (get_genre_weight_distribution [3, 0, 2, 0, 0])) ∧
     (prepare_weight_cumulative (get_genre_weight_distribution [3, 0, 2, 0, 0])).getLast? = some 1) :=
  ⟨by decide, cumulative_table_monotone_last_one [3, 0, 2, 0, 0] (by decide)⟩

/-- C3 counterexample: the claim quantifies over every uniform sample r in
[0,1); but at r = 0 (a value random.random can return) the selector answers
the smallest index whose cumulative threshold is 0, i.e. index 0, not the
point-mass genre 1. -/
theorem select_point_mass_zero_roll_counterexample :
    (0 : ℚ) ≤ 0 ∧ (0 : ℚ) < 1 ∧
    select_genre_index (prepare_weight_cumulative (point_mass 1)) 0 = 0 ∧
    select_genre_index (prepare_weight_cumulative (point_mass 1)) 0 ≠ 1 := by
  have htable : prepare_weight_cumulative (point_mass 1) = [0, 1, 1, 1, 1] := by
    norm_num [prepare_weight_cumulative, point_mass, GENRES, running_sums, set_last,
      List.range_succ]
  have hsel : select_genre_index (prepare_weight_cumulative (point_mass 1)) 0 = 0 := by
    rw [htable]
    norm_num [select_genre_index, List.findIdx?_cons]
  exact ⟨le_refl 0, by norm_num, hsel, by rw [hsel]; decide⟩

/-- C3 (amended): for the point-mass distribution on a genre, every roll r
with 0 < r < 1 deterministically selects that genre; the claim's original
range [0,1) fails only at the single roll r = 0 when the genre is not the
first one. -/
theorem select_point_mass (target : Nat) (htarget : target < GENRES.length)
    (r : ℚ) (h0 : 0 < r) (h1 : r < 1) :
    select_genre_index (prepare_weight_cumulative (point_mass target)) r = target := by
  have hr0 : ¬ r ≤ 0 := not_le.2 h0
  have hr1 : r ≤ 1 := le_of_lt h1
  have h5 : target < 5 := by simpa [GENRES] using htarget
  interval_cases target <;>
    norm_num [select_genre_index, prepare_weight_cumulative, point_mass, GENRES,
      running_sums, set_last, List.range_succ, List.findIdx?_cons, hr0, hr1]

/-- C3 witness: the point-mass selection theorem at genre 3 and roll 1/3. -/
theorem select_point_mass_witness :
    3 < GENRES.length ∧ (0 : ℚ) < 1/3 ∧ (1/3 : ℚ) < 1 ∧
    select_genre_index (prepare_weight_cumulative (point_mass 3)) (1/3) = 3 :=
  ⟨by decide, by norm_num, by norm_num,
    select_point_mass 3 (by decide) (1/3) (by norm_num) (by norm_num)⟩

lemma extension_config_inv (auto_extend : Bool) (page_counts : List Nat) (m_value : Int)
    (setup_index : Nat) (cfg : ExtensionConfig)
    (h : extension_config auto_extend page_counts m_value setup_index = some cfg) :
    auto_extend = true ∧ page_counts ≠ [] ∧ page_counts.foldl max 0 ≠ 0 ∧
    cfg = { top_indices := (List.range page_counts.length).filter
              (fun idx => page_counts.getD idx 0 == page_counts.foldl max 0),
            threshold_ready := 80 + m_value,
            threshold_high := 33 + m_value,
            extra_hunts := 3,
            setup_index := setup_index } := by
  rw [extension_config] at h
  split_ifs at h with h1 h2 h3
  refine ⟨by simpa using h1, h2, h3, ?_⟩
  exact (Option.some.inj h).symm

lemma top_indices_page_counts (auto_extend : Bool) (page_counts : List Nat) (m_value : Int)
    (setup_index : Nat) (cfg : ExtensionConfig)
    (h : extension_config auto_extend page_counts m_value setup_index = some cfg) :
    ∀ idx ∈ cfg.top_indices, page_counts.getD idx 0 ≠ 0 := by
  obtain ⟨-, -, hmax, hcfg⟩ := extension_config_inv _ _ _ _ _ h
  intro idx hidx
  rw [hcfg] at hidx
  simp only [List.mem_filter, beq_iff_eq] at hidx
  rw [hidx.2]
  exact hmax

/-- C5: with auto-extend enabled and a non-degenerate page-count vector, a
first-stage (setup index 0) extension triggers exactly when some top genre's
final value is strictly below 80 + m; in particular a top genre exactly at
80 + m does not trigger. -/
theorem first_stage_trigger_iff (page_counts setup2_counts : List Nat) (m_value : Int)
    (values : List Int) (cfg : ExtensionConfig)
    (h : extension_config true page_counts m_value 0 = some cfg) :
    cfg.threshold_ready = 80 + m_value ∧
    (should_trigger_extension setup2_counts values cfg = true ↔
      ∃ idx ∈ cfg.top_indices, values.getD idx 0 < 80 + m_value) := by
  obtain ⟨-, -, -, hcfg⟩ := extension_config_inv _ _ _ _ _ h
  have hready : cfg.threshold_ready = 80 + m_value := by rw [hcfg]
  have hsetup : cfg.setup_index = 0 := by rw [hcfg]
  refine ⟨hready, ?_⟩
  rw [should_trigger_extension, hsetup, hready]
  simp [List.any_eq_true]

/-- C5 witness: page counts (2,1,0,0,0) and m = 10 give top genre 0 and
ready threshold 90; the trigger equivalence is instantiated there. -/
theorem first_stage_trigger_iff_witness :
    extension_config true [2, 1, 0, 0, 0] 10 0 =
      some ({ top_indices := [0], threshold_ready := 90, threshold_high := 43,
              extra_hunts := 3, setup_index := 0 } : ExtensionConfig) ∧
    ((90 : Int) = 80 + 10 ∧
     (should_trigger_extension [9, 9, 9, 9, 9] [85, 0, 0, 0, 0]
        { top_indices := [0], threshold_ready := 90, threshold_high := 43,
          extra_hunts := 3, setup_index := 0 } = true ↔
      ∃ idx ∈ [0], ([85, 0, 0, 0, 0] : List Int).getD idx 0 < 80 + 10)) :=
  ⟨by decide, first_stage_trigger_iff [2, 1, 0, 0, 0] [9, 9, 9, 9, 9] 10
    [85, 0, 0, 0, 0]
    ({ top_indices := [0], threshold_ready := 90, threshold_high := 43,
       extra_hunts := 3, setup_index := 0 } : ExtensionConfig) (by decide)⟩

/-- C10: whenever _extension_config (or its _with_counts twin) yields a
config, every top index has a strictly positive page count, so the
second-stage special case for zero-weight top genres can never fire and the
trigger decision is exactly "some top genre strictly below the ready
threshold". -/
theorem zero_weight_special_case_unreachable (auto_extend : Bool) (page_counts : List Nat)
    (m_value : Int) (setup_index : Nat) (values : List Int) (cfg : ExtensionConfig)
    (h : extension_config auto_extend page_counts m_value setup_index = some cfg) :
    (∀ idx ∈ cfg.top_indices, page_counts.getD idx 0 ≠ 0) ∧
    should_trigger_extension page_counts values cfg =
      cfg.top_indices.any (fun idx => decide (values.getD idx 0 < cfg.threshold_ready)) := by
  have htop := top_indices_page_counts _ _ _ _ _ h
  refine ⟨htop, ?_⟩
  rw [should_trigger_extension]
  have hany : cfg.top_indices.any (fun idx =>
      page_counts.getD idx 0 == 0 && decide (values.getD idx 0 < 83)) = false := by
    rw [List.any_eq_false]
    intro idx hidx
    have hz : (page_counts.getD idx 0 == 0) = false :=
      beq_eq_false_iff_ne.2 (htop idx hidx)
    rw [hz, Bool.false_and]
    exact Bool.false_ne_true
  rw [hany]
  simp

/-- C10 witness: a second-stage config built from page counts (3,3,0,0,0),
whose top genres 0 and 1 both hold the positive maximum. -/
theorem zero_weight_special_case_unreachable_witness :
    extension_config true [3, 3, 0, 0, 0] 0 1 =
      some ({ top_indices := [0, 1], threshold_ready := 80, threshold_high := 33,
              extra_hunts := 3, setup_index := 1 } : ExtensionConfig) ∧
    ((∀ idx ∈ [0, 1], ([3, 3, 0, 0, 0] : List Nat).getD idx 0 ≠ 0) ∧
     should_trigger_extension [3, 3, 0, 0, 0] [90, 79, 0, 0, 0]
        { top_indices := [0, 1], threshold_ready := 80, threshold_high := 33,
          extra_hunts := 3, setup_index := 1 } =
       ((([0, 1] : List Nat)).any (fun idx =>
         decide (([90, 79, 0, 0, 0] : List Int).getD idx 0 <
           ({ top_indices := [0, 1], threshold_ready := 80, threshold_high := 33,
              extra_hunts := 3, setup_index := 1 } : ExtensionConfig).threshold_ready)))) :=
  ⟨by decide, zero_weight_special_case_unreachable true [3, 3, 0, 0, 0] 0 1
    [90, 79, 0, 0, 0]
    ({ top_indices := [0, 1], threshold_ready := 80, threshold_high := 33,
       extra_hunts := 3, setup_index := 1 } : ExtensionConfig) (by decide)⟩

lemma prune_entries_getD (threshold : Int) (counts : List Nat) (vs : List Int) (idx : Nat)
    (hc : idx < counts.length) (hv : idx < vs.length) :
    (prune_entries threshold counts vs).getD idx 0 =
      if vs.getD idx 0 > threshold then 0 else counts.getD idx 0 := by
  induction counts generalizing vs idx with
  | nil => simp at hc
  | cons c cs ih =>
    cases vs with
    | nil => simp at hv
    | cons v vs2 =>
      cases idx with
      | zero => simp [prune_entries]
      | succ idx =>
        have hc2 : idx < cs.length := by simpa using hc
        have hv2 : idx < vs2.length := by simpa using hv
        simpa [prune_entries] using ih vs2 idx hc2 hv2

/-- C6: in the pruned two-stage variant a genre's stage-2 page count is
forced to 0 exactly when its stage-1 notoriety strictly exceeds the prune
threshold (93 with stage 2's extend flag, 90 without); at or below the
threshold the original count is kept. -/
theorem prune_exactly_above_threshold (extend_flag : Bool) (counts : List Nat)
    (notoriety_values : List Int) (idx : Nat)
    (hc : idx < counts.length) (hv : idx < notoriety_values.length) :
    (second_setup_prune_threshold extend_flag = if extend_flag then 93 else 90) ∧
    (notoriety_values.getD idx 0 > second_setup_prune_threshold extend_flag →
      (build_pruned_page_counts extend_flag counts notoriety_values).getD idx 0 = 0) ∧
    (notoriety_values.getD idx 0 ≤ second_setup_prune_threshold extend_flag →
      (build_pruned_page_counts extend_flag counts notoriety_values).getD idx 0 =
        counts.getD idx 0) := by
  refine ⟨rfl, ?_, ?_⟩
  · intro habove
    rw [build_pruned_page_counts, prune_entries_getD _ _ _ _ hc hv, if_pos habove]
  · intro hbelow
    rw [build_pruned_page_counts, prune_entries_getD _ _ _ _ hc hv,
      if_neg (not_lt.2 hbelow)]

/-- C6 witness: extend flag set (threshold 93), genre 0 exactly at 93 keeps
its count, and the theorem is instantiated at genre 0. -/
theorem prune_exactly_above_threshold_witness :
    0 < ([7, 7, 7, 7, 7] : List Nat).length ∧
    0 < ([93, 94, 0, 0, 0] : List Int).length ∧
    ((second_setup_prune_threshold true = if true then 93 else 90) ∧
     (([93, 94, 0, 0, 0] : List Int).getD 0 0 > second_setup_prune_threshold true →
       (build_pruned_page_counts true [7, 7, 7, 7, 7] [93, 94, 0, 0, 0]).getD 0 0 = 0) ∧
     (([93, 94, 0, 0, 0] : List Int).getD 0 0 ≤ second_setup_prune_threshold true →
       (build_pruned_page_counts true [7, 7, 7, 7, 7] [93, 94, 0, 0, 0]).getD 0 0 =
         ([7, 7, 7, 7, 7] : List Nat).getD 0 0)) :=
  ⟨by decide, by decide,
    prune_exactly_above_threshold true [7, 7, 7, 7, 7] [93, 94, 0, 0, 0] 0
      (by decide) (by decide)⟩

lemma ext_go_trace_length (cum : List ℚ) (cfg : ExtensionConfig) (n : Nat) :
    ∀ (values : List Int) (rolls : List ℚ) (sw : Bool),
    ((apply_extension_go cum cfg n values rolls sw).2).length = n := by
  induction n with
  | zero => intro values rolls sw; rfl
  | succ n ih =>
    intro values rolls sw
    simp [apply_extension_go, ih]

lemma ext_go_switch_true_snd (cum : List ℚ) (cfg : ExtensionConfig) (n : Nat) :
    ∀ (values : List Int) (rolls : List ℚ) (i : Nat), i < n →
    (((apply_extension_go cum cfg n values rolls true).2).getD i ([], 0)).2 = 50 := by
  induction n with
  | zero => intro values rolls i hi; exact absurd hi (Nat.not_lt_zero i)
  | succ n ih =>
    intro values rolls i hi
    cases i with
    | zero => simp [apply_extension_go]
    | succ i =>
      have hi2 : i < n := by omega
      simpa [apply_extension_go] using ih _ rolls.tail i hi2

lemma ext_go_no125_after_50 (cum : List ℚ) (cfg : ExtensionConfig) (n : Nat) :
    ∀ (values : List Int) (rolls : List ℚ) (sw : Bool) (i j : Nat), i < j → j < n →
    (((apply_extension_go cum cfg n values rolls sw).2).getD i ([], 0)).2 = 50 →
    (((apply_extension_go cum cfg n values rolls sw).2).getD j ([], 0)).2 = 50 := by
  induction n with
  | zero => intro values rolls sw i j hij hj h50; exact absurd hj (Nat.not_lt_zero j)
  | succ n ih =>
    intro values rolls sw i j hij hj h50
    obtain ⟨j2, rfl⟩ : ∃ j2, j = j2 + 1 := ⟨j - 1, by omega⟩
    have hj2 : j2 < n := by omega
    cases i with
    | zero =>
      cases hsw : sw with
      | true =>
        subst hsw
        simpa [apply_extension_go] using
          ext_go_switch_true_snd cum cfg n _ rolls.tail j2 hj2
      | false =>
        subst hsw
        cases hb : below_high values cfg with
        | true => simp [apply_extension_go, hb] at h50
        | false =>
          simpa [apply_extension_go, hb] using
            ext_go_switch_true_snd cum cfg n _ rolls.tail j2 hj2
    | succ i =>
      have hij2 : i < j2 := by omega
      simp only [apply_extension_go, List.getD_cons_succ] at h50 ⊢
      exact ih _ rolls.tail _ i j2 hij2 hj2 h50

lemma ext_go_snd_cases (cum : List ℚ) (cfg : ExtensionConfig) (n : Nat) :
    ∀ (values : List Int) (rolls : List ℚ) (sw : Bool) (i : Nat), i < n →
    (((apply_extension_go cum cfg n values rolls sw).2).getD i ([], 0)).2 = 125 ∨
    (((apply_extension_go cum cfg n values rolls sw).2).getD i ([], 0)).2 = 50 := by
  induction n with
  | zero => intro values rolls sw i hi; exact absurd hi (Nat.not_lt_zero i)
  | succ n ih =>
    intro values rolls sw i hi
    cases i with
    | zero =>
      cases h : (!sw && below_high values cfg) with
      | true => left; simp [apply_extension_go, h]
      | false => right; simp [apply_extension_go, h]
    | succ i =>
      have hi2 : i < n := by omega
      simp only [apply_extension_go, List.getD_cons_succ]
      exact ih _ rolls.tail _ i hi2

lemma ext_go_false_char (cum : List ℚ) (cfg : ExtensionConfig) (n : Nat) :
    ∀ (values : List Int) (rolls : List ℚ) (i : Nat), i < n →
    ((((apply_extension_go cum cfg n values rolls false).2).getD i ([], 0)).2 = 125 ↔
      (below_high (((apply_extension_go cum cfg n values rolls false).2).getD i ([], 0)).1
          cfg = true ∧
       ∀ j, j < i →
         (((apply_extension_go cum cfg n values rolls false).2).getD j ([], 0)).2 = 125)) := by
  induction n with
  | zero => intro values rolls i hi; exact absurd hi (Nat.not_lt_zero i)
  | succ n ih =>
    intro values rolls i hi
    cases hb : below_high values cfg with
    | true =>
      cases i with
      | zero =>
        simp [apply_extension_go, hb]
      | succ i =>
        have hi2 : i < n := by omega
        have H := ih (apply_hunt_step values 125 cum (rolls.headD 0)) rolls.tail i hi2
        simp only [apply_extension_go, hb, Bool.not_true, Bool.false_and, Bool.not_false,
          Bool.and_true, Bool.true_and, if_true, List.getD_cons_succ, Bool.or_false,
          Bool.false_or] at H ⊢
        constructor
        · intro h125
          obtain ⟨hbelow, hall⟩ := H.1 h125
          refine ⟨hbelow, ?_⟩
          intro j hj
          cases j with
          | zero => simp [apply_extension_go, hb]
          | succ j =>
            have := hall j (by omega)
            simpa [apply_extension_go, hb] using this
        · intro hpair
          apply H.2
          refine ⟨hpair.1, ?_⟩
          intro j hj
          have := hpair.2 (j + 1) (by omega)
          simpa [apply_extension_go, hb] using this
    | false =>
      cases i with
      | zero =>
        simp [apply_extension_go, hb]
      | succ i =>
        have hi2 : i < n := by omega
        have h50 : (((apply_extension_go cum cfg (n + 1) values rolls false).2).getD
            (i + 1) ([], 0)).2 = 50 := by
          simpa [apply_extension_go, hb] using
            ext_go_switch_true_snd cum cfg n _ rolls.tail i hi2
        constructor
        · intro h125
          rw [h50] at h125
          exact absurd h125 (by decide)
        · intro hpair
          have h0 := hpair.2 0 (Nat.succ_pos i)
          simp [apply_extension_go, hb] at h0

/-- C7: during an extension, magnitude selection is a one-way switch.  In the
trace of (state before step, magnitude) pairs: once a step uses magnitude 50
every later step uses 50; every step uses 125 or 50; and a step uses 125
exactly when some top genre is still below 33+m at that step and every
earlier step used 125. -/
theorem extension_one_way_switch (values : List Int) (cumulative_weights : List ℚ)
    (cfg : ExtensionConfig) (rolls : List ℚ) :
    (∀ i j, i < j → j < (extension_trace values cumulative_weights cfg rolls).length →
      ((extension_trace values cumulative_weights cfg rolls).getD i ([], 0)).2 = 50 →
      ((extension_trace values cumulative_weights cfg rolls).getD j ([], 0)).2 = 50) ∧
    (∀ i, i < (extension_trace values cumulative_weights cfg rolls).length →
      ((extension_trace values cumulative_weights cfg rolls).getD i ([], 0)).2 = 125 ∨
      ((extension_trace values cumulative_weights cfg rolls).getD i ([], 0)).2 = 50) ∧
    (∀ i, i < (extension_trace values cumulative_weights cfg rolls).length →
      (((extension_trace values cumulative_weights cfg rolls).getD i ([], 0)).2 = 125 ↔
        (below_high
            ((extension_trace values cumulative_weights cfg rolls).getD i ([], 0)).1
            cfg = true ∧
         ∀ j, j < i →
           ((extension_trace values cumulative_weights cfg rolls).getD j ([], 0)).2 = 125))) := by
  have hlen : (extension_trace values cumulative_weights cfg rolls).length = cfg.extra_hunts :=
    ext_go_trace_length cumulative_weights cfg cfg.extra_hunts values rolls false
  refine ⟨?_, ?_, ?_⟩
  · intro i j hij hj
    rw [hlen] at hj
    exact ext_go_no125_after_50 cumulative_weights cfg cfg.extra_hunts values rolls false
      i j hij hj
  · intro i hi
    rw [hlen] at hi
    exact ext_go_snd_cases cumulative_weights cfg cfg.extra_hunts values rolls false i hi
  · intro i hi
    rw [hlen] at hi
    exact ext_go_false_char cumulative_weights cfg cfg.extra_hunts values rolls i hi

/-- C7 witness: a run whose top genre starts at 100 (not below 43) takes
magnitude 50 on its first extra step, and the one-way switch forces
magnitude 50 on the last extra step as well. -/
theorem extension_one_way_switch_witness :
    ((extension_trace [100, 0, 0, 0, 0] [1, 1, 1, 1, 1]
        { top_indices := [0], threshold_ready := 90, threshold_high := 43,
          extra_hunts := 3, setup_index := 0 } [0, 0, 0]).getD 0 ([], 0)).2 = 50 ∧
    ((extension_trace [100, 0, 0, 0, 0] [1, 1, 1, 1, 1]
        { top_indices := [0], threshold_ready := 90, threshold_high := 43,
          extra_hunts := 3, setup_index := 0 } [0, 0, 0]).getD 2 ([], 0)).2 = 50 :=
  ⟨by decide,
    (extension_one_way_switch [100, 0, 0, 0, 0] [1, 1, 1, 1, 1]
      { top_indices := [0], threshold_ready := 90, threshold_high := 43,
        extra_hunts := 3, setup_index := 0 } [0, 0, 0]).1 0 2 (by decide) (by decide)
      (by decide)⟩

lemma le_iteration_best (candidate_probs : List ℚ) (best_prob blended_prob : ℚ) :
    best_prob ≤ iteration_best candidate_probs best_prob blended_prob := by
  rw [iteration_best]
  have hmem : best_prob ∈ candidate_probs ++ [best_prob] := by simp
  have hperm := List.mergeSort_perm (candidate_probs ++ [best_prob])
    (fun a b => decide (b ≤ a))
  have hmem2 : best_prob ∈ (candidate_probs ++ [best_prob]).mergeSort
      (fun a b => decide (b ≤ a)) := hperm.mem_iff.2 hmem
  have hsorted := @List.sorted_mergeSort ℚ
    (fun a b : ℚ => decide (b ≤ a))
    (fun a b c hab hbc => by
      simp only [decide_eq_true_eq] at hab hbc ⊢
      exact le_trans hbc hab)
    (fun a b => by
      simp only [Bool.or_eq_true, decide_eq_true_eq]
      exact le_total b a)
    (candidate_probs ++ [best_prob])
  set sorted := (candidate_probs ++ [best_prob]).mergeSort (fun a b => decide (b ≤ a))
    with hsorted_def
  cases hms : sorted with
  | nil =>
    rw [hms] at hmem2
    exact absurd hmem2 (List.not_mem_nil best_prob)
  | cons x xs =>
    have htop : best_prob ≤ x := by
      rw [hms] at hmem2
      rcases List.mem_cons.1 hmem2 with rfl | hmemtail
      · exact le_refl _
      · have := List.rel_of_pairwise_cons (hms ▸ hsorted) hmemtail
        simpa using this
    simp only [List.headD_cons]
    split_ifs with hcond
    · exact le_trans htop (by exact_mod_cast hcond)
    · exact htop

/-- C4: best_prob is monotonically non-decreasing across the optimizer's
iterations: one iteration's best-probability update never decreases it (the
unmodified current best is always in the ranked pool), for every outcome of
the candidate and blend evaluations; consequently the folded value after any
number of iterations is at least the initial estimate. -/
theorem best_prob_monotone :
    (∀ (candidate_probs : List ℚ) (best_prob blended_prob : ℚ),
      best_prob ≤ iteration_best candidate_probs best_prob blended_prob) ∧
    (∀ (initial_prob : ℚ) (iteration_results : List (List ℚ × ℚ)),
      initial_prob ≤ run_optimization_best_prob initial_prob iteration_results) := by
  refine ⟨le_iteration_best, ?_⟩
  intro initial_prob iteration_results
  induction iteration_results generalizing initial_prob with
  | nil => exact le_refl _
  | cons it rest ih =>
    rw [run_optimization_best_prob, List.foldl_cons]
    exact le_trans (le_iteration_best it.1 initial_prob it.2) (ih _)

lemma getD_set_ne (l : List ℚ) (j i : Nat) (hne : j ≠ i) (v : ℚ) :
    (l.set j v).getD i 0 = l.getD i 0 := by
  by_cases hi : i < l.length
  · have hi2 : i < (l.set j v).length := by rw [List.length_set]; exact hi
    rw [List.getD_eq_getElem _ _ hi2, List.getD_eq_getElem _ _ hi]
    exact List.getElem_set_ne hne hi2
  · have hlen : l.length ≤ i := le_of_not_lt hi
    rw [List.getD_eq_default _ _ hlen,
      List.getD_eq_default _ _ (by rw [List.length_set]; exact hlen)]

lemma gen_foldl_getD_ne (base_counts bias : List ℚ) (dial_range : ℚ)
    (l : List (Nat × ℚ)) :
    ∀ (acc : List ℚ) (i : Nat), (∀ p ∈ l, p.1 ≠ i) →
    (l.foldl (gen_step base_counts bias dial_range) acc).getD i 0 = acc.getD i 0 := by
  induction l with
  | nil => intro acc i hne; rfl
  | cons p l ih =>
    intro acc i hne
    rw [List.foldl_cons, ih _ i (fun q hq => hne q (List.mem_cons_of_mem _ hq))]
    exact getD_set_ne acc p.1 i (hne p (List.mem_cons_self _ _)) _

lemma gen_foldl_length (base_counts bias : List ℚ) (dial_range : ℚ)
    (l : List (Nat × ℚ)) :
    ∀ acc : List ℚ, (l.foldl (gen_step base_counts bias dial_range) acc).length = acc.length := by
  induction l with
  | nil => intro acc; rfl
  | cons p l ih =>
    intro acc
    rw [List.foldl_cons, ih]
    exact List.length_set acc _ _

lemma gen_foldl_nonneg (base_counts bias : List ℚ) (dial_range : ℚ)
    (l : List (Nat × ℚ)) :
    ∀ acc : List ℚ, (∀ x ∈ acc, 0 ≤ x) →
    ∀ x ∈ l.foldl (gen_step base_counts bias dial_range) acc, 0 ≤ x := by
  induction l with
  | nil => intro acc hacc; exact hacc
  | cons p l ih =>
    intro acc hacc
    rw [List.foldl_cons]
    refine ih _ ?_
    intro x hx
    rcases List.mem_or_eq_of_mem_set hx with hx2 | rfl
    · exact hacc x hx2
    · exact le_max_left 0 _

lemma mem_positive_indices (base_counts : List ℚ) (i : Nat) :
    i ∈ positive_indices base_counts ↔
      i < base_counts.length ∧ 0 < base_counts.getD i 0 := by
  simp [positive_indices, List.mem_filter, List.mem_range]

lemma positive_indices_nodup (base_counts : List ℚ) :
    (positive_indices base_counts).Nodup :=
  (List.nodup_range _).filter _

lemma values_getD_mem_q (l : List ℚ) (i : Nat) (hi : i < l.length) : l.getD i 0 ∈ l := by
  rw [List.getD_eq_getElem _ _ hi]
  exact List.getElem_mem _

lemma gen_candidate_sum_ne_zero (base_counts bias : List ℚ) (dial_range : ℚ)
    (selected : List Nat) (rand_draws : List ℚ)
    (hnn : ∀ x ∈ base_counts, 0 ≤ x)
    (h2 : 2 ≤ (positive_indices base_counts).length)
    (hvalid : valid_selection base_counts selected = true) :
    (generate_candidate_counts base_counts bias dial_range selected rand_draws).sum ≠ 0 := by
  have hpos_ne : (positive_indices base_counts).isEmpty = false := by
    cases hpe : (positive_indices base_counts).isEmpty
    · rfl
    · rw [List.isEmpty_iff] at hpe
      rw [hpe] at h2
      simp at h2
  rw [valid_selection] at hvalid
  simp only [hpos_ne, Bool.false_eq_true, if_false] at hvalid
  have hsize : gen_subset_size (positive_indices base_counts).length <
      (positive_indices base_counts).length := by
    rw [gen_subset_size]
    have ha : ((positive_indices base_counts).length + 1) / 2 <
        (positive_indices base_counts).length := by omega
    have hb : 1 < (positive_indices base_counts).length := by omega
    exact max_lt hb ha
  rw [if_pos hsize] at hvalid
  simp only [Bool.and_eq_true, decide_eq_true_eq, List.all_eq_true, beq_iff_eq] at hvalid
  obtain ⟨⟨hnodup, hsub⟩, hlen⟩ := hvalid
  have hex : ∃ i ∈ positive_indices base_counts, i ∉ selected := by
    by_contra hcon
    push_neg at hcon
    have hsubperm := (positive_indices_nodup base_counts).subperm
      (fun x hx => hcon x hx)
    have := hsubperm.length_le
    omega
  obtain ⟨i, hipos, hinsel⟩ := hex
  obtain ⟨hilt, higt⟩ := (mem_positive_indices base_counts i).1 hipos
  have hcand_getD : (generate_candidate_counts base_counts bias dial_range
      selected rand_draws).getD i 0 = base_counts.getD i 0 := by
    rw [generate_candidate_counts]
    refine gen_foldl_getD_ne base_counts bias dial_range _ base_counts i ?_
    intro p hp
    intro hpi
    exact hinsel (hpi ▸ (List.of_mem_zip hp).1)
  have hlen_cand : (generate_candidate_counts base_counts bias dial_range
      selected rand_draws).length = base_counts.length := by
    rw [generate_candidate_counts]
    exact gen_foldl_length base_counts bias dial_range _ base_counts
  have hnn_cand : ∀ x ∈ generate_candidate_counts base_counts bias dial_range
      selected rand_draws, 0 ≤ x := by
    rw [generate_candidate_counts]
    exact gen_foldl_nonneg base_counts bias dial_range _ base_counts hnn
  have hmem : (generate_candidate_counts base_counts bias dial_range
      selected rand_draws).getD i 0 ∈
      generate_candidate_counts base_counts bias dial_range selected rand_draws :=
    values_getD_mem_q _ i (by rw [hlen_cand]; exact hilt)
  have hle := List.single_le_sum hnn_cand _ hmem
  have hpos_sum : 0 < (generate_candidate_counts base_counts bias dial_range
      selected rand_draws).sum := by
    rw [hcand_getD] at hle
    linarith
  exact ne_of_gt hpos_sum

/-- C8 counterexample: the claim promises that the regeneration loop always
finishes for every sequence of random draws.  With best counts (5,0,0,0,0)
the sample is forced to pick exactly index 0; at dial range 200 the uniform
draw r = 0 gives delta = -2, zeroing the only positive count, so the drawn
candidate is degenerate every time and the loop never collects a candidate:
the constant draw sequence below defeats termination. -/
theorem regen_loop_counterexample :
    valid_selection [5, 0, 0, 0, 0] [0] = true ∧
    ¬ regen_loop_terminates [5, 0, 0, 0, 0] [0, 0, 0, 0, 0] 200
      (fun _ => ([0], [0])) 1 := by
  constructor
  · norm_num [valid_selection, positive_indices, gen_subset_size, List.range_succ]
  · rintro ⟨trials, htr⟩
    have hfail : regen_success [5, 0, 0, 0, 0] [0, 0, 0, 0, 0] 200 (([0], [0])) = false := by
      rw [regen_success, decide_eq_false_iff_not, not_not]
      norm_num [generate_candidate_counts, gen_step, List.zip]
    have hcount : (List.range trials).countP
        (fun n => regen_success [5, 0, 0, 0, 0] [0, 0, 0, 0, 0] 200
          ((fun _ => (([0], [0]) : List Nat × List ℚ)) n)) = 0 := by
      rw [List.countP_eq_zero]
      intro a _
      rw [hfail]
      exact Bool.false_ne_true
    rw [hcount] at htr
    omega

/-- C8 (amended): the optimizer's outer loop is a fixed iteration count, and
the regeneration loop finishes whenever the current best counts hold at
least two strictly positive categories: every sampled perturbation then
leaves some positive category untouched, so every drawn candidate has a
positive total and is accepted immediately.  (With at most one positive
category an adversarial draw sequence can zero every candidate, as the
counterexample shows.) -/
theorem regen_loop_terminates_of_two_positive (base_counts bias : List ℚ)
    (dial_range : ℚ) (draws : Nat → List Nat × List ℚ) (needed : Nat)
    (hnn : ∀ x ∈ base_counts, 0 ≤ x)
    (h2 : 2 ≤ (positive_indices base_counts).length)
    (hvalid : ∀ n, valid_selection base_counts (draws n).1 = true) :
    regen_loop_terminates base_counts bias dial_range draws needed := by
  refine ⟨needed, ?_⟩
  have hall : ∀ n ∈ List.range needed,
      regen_success base_counts bias dial_range (draws n) = true := by
    intro n _
    rw [regen_success, decide_eq_true_eq]
    exact gen_candidate_sum_ne_zero base_counts bias dial_range _ _ hnn h2 (hvalid n)
  rw [List.countP_eq_length.2 hall, List.length_range]

/-- C8 witness: base counts (1,1,0,0,0) hold two positive categories; the
constant draw sequence picking index 0 with uniform draw 0 is a valid
sample shape, and the loop collects 4 candidates. -/
theorem regen_loop_terminates_witness :
    regen_loop_terminates [1, 1, 0, 0, 0] [0, 0, 0, 0, 0] 200
      (fun _ => ([0], [0])) 4 :=
  regen_loop_terminates_of_two_positive [1, 1, 0, 0, 0] [0, 0, 0, 0, 0] 200
    (fun _ => ([0], [0])) 4
    (by norm_num)
    (by norm_num [positive_indices, List.range_succ])
    (fun n => by
      norm_num [valid_selection, positive_indices, gen_subset_size, List.range_succ])

end CCS
